import Mathlib

/-!
Verification of the helium-rewards-api ingestion core.

The JavaScript source is shallowly embedded: byte buffers become `List Nat`
(each element a byte value `< 256`), JS strings become `String`, fallible
code returns `Option`/`Except`, and the external SHA-256 digest (from the
`crypto` module) is passed in as an explicit function argument `sha`
(no proved property depends on the digest's actual values: the code under
verification never verifies a checksum, it only appends and strips one).
-/

/-- The Bitcoin base58 alphabet used by the `bs58` package. -/
def b58Alphabet : List Char :=
  "123456789ABCDEFGHJKLMNPQRSTUVWXYZabcdefghijkmnopqrstuvwxyz".data

/-- Digit value of a base58 character (`base-x` alphabet map); `none` for a
character outside the alphabet (where `bs58.decode` throws). -/
def b58CharIdx (c : Char) : Option Nat :=
  List.findIdx? (fun a => a == c) b58Alphabet

/-- Character for a base58 digit. -/
def b58Chr (d : Nat) : Char := b58Alphabet.getD d ' '

/-- Big-endian positional fold: `[d0, d1, ...]` as the number
`d0 * base^(k-1) + ... + d_{k-1}` (the accumulator loop used by `base-x`
and by `parseInt`). -/
def natFold (base : Nat) (ds : List Nat) : Nat :=
  ds.foldl (fun a d => a * base + d) 0

/-- Fuel-driven big-endian digit expansion (`fuel ≥ n` makes it exact). -/
def digitsGo (base : Nat) : Nat → Nat → List Nat → List Nat
  | 0, _, acc => acc
  | fuel + 1, n, acc => if n = 0 then acc else digitsGo base fuel (n / base) (n % base :: acc)

/-- Big-endian base-`base` digits of `n`, empty for `0`, no leading zero digit. -/
def natDigitsBE (base n : Nat) : List Nat := digitsGo base n n []

/-- Number of zero bytes at the front of a buffer (`base-x` leading-zero scan). -/
def countLeadZeros : List Nat → Nat
  | [] => 0
  | b :: t => if b = 0 then countLeadZeros t + 1 else 0

/-- Number of `'1'` characters at the front of a base58 string. -/
def countLeadOnes : List Char → Nat
  | [] => 0
  | c :: t => if c = '1' then countLeadOnes t + 1 else 0

/-- `bs58.encode`: leading zero bytes become `'1'`s, the rest is the
base-256 value re-expressed in base58. -/
def bs58encode (bytes : List Nat) : String :=
  String.mk (List.replicate (countLeadZeros bytes) '1'
    ++ (natDigitsBE 58 (natFold 256 bytes)).map b58Chr)

/-- All-or-nothing mapping over a list (a failing element fails the whole
traversal, as a thrown JS exception would). -/
def mapOpt (f : α → Option β) : List α → Option (List β)
  | [] => some []
  | a :: t =>
      match f a, mapOpt f t with
      | some b, some bs => some (b :: bs)
      | _, _ => none

/-- `bs58.decode`: fails (throws in JS) iff some character is outside the
alphabet; otherwise leading `'1'`s become zero bytes and the base58 value is
re-expressed in base 256. -/
def bs58decode (s : String) : Option (List Nat) :=
  match mapOpt b58CharIdx s.data with
  | none => none
  | some ds =>
      some (List.replicate (countLeadOnes s.data) 0 ++ natDigitsBE 256 (natFold 58 ds))

/-- `base58checkEncode(data, version)` (identical text in all four scraper
modules): prepend the version byte, append the first 4 bytes of the double
SHA-256 of the versioned payload, base58-encode the result.  `sha` stands for
one application of the external SHA-256 digest. -/
def base58checkEncode (sha : List Nat → List Nat) (data : List Nat) (version : Nat) : String :=
  let versionedData := version % 256 :: data
  let firstHash := sha versionedData
  let secondHash := sha firstHash
  let checksum := secondHash.take 4
  let finalData := versionedData ++ checksum
  bs58encode finalData

/-- `base58checkEncodeRaw(payload, version)` from `scrapePocRewards.js`. -/
def base58checkEncodeRaw (sha : List Nat → List Nat) (payload : List Nat) (version : Nat) : String :=
  let data := version % 256 :: payload
  let chk := (sha (sha data)).take 4
  bs58encode (data ++ chk)

/-- JS `decoded.slice(1, -4)`: drop the version byte and the 4 checksum
bytes (empty when fewer than 5 bytes are present). -/
def stripVersionChecksum (bytes : List Nat) : List Nat :=
  (bytes.drop 1).take (bytes.length - 5)

/-- The checksummed-base58 decoding described by the spec: base58-decode,
strip the last 4 bytes as checksum and the first byte as version. -/
def base58checkDecode (s : String) : Option (Nat × List Nat) :=
  match bs58decode s with
  | none => none
  | some bytes => some (bytes.headD 0, stripVersionChecksum bytes)

/-- Lowercase hex digit characters. -/
def hexDigits : List Char :=
  "0123456789abcdef".data

/-- `Buffer.prototype.toString("hex")`. -/
def bytesToHex (bytes : List Nat) : String :=
  String.mk (bytes.foldr (fun b acc => hexDigits.getD (b / 16 % 16) '0' :: hexDigits.getD (b % 16) '0' :: acc) [])

/-- The standard base64 alphabet. -/
def b64Alphabet : List Char :=
  "ABCDEFGHIJKLMNOPQRSTUVWXYZabcdefghijklmnopqrstuvwxyz0123456789+/".data

/-- One base64 output group for up to three input bytes. -/
def b64Group : List Nat → List Char
  | [b0] => [b64Alphabet.getD (b0 / 4) 'A', b64Alphabet.getD (b0 % 4 * 16) 'A', '=', '=']
  | [b0, b1] => [b64Alphabet.getD (b0 / 4) 'A', b64Alphabet.getD (b0 % 4 * 16 + b1 / 16) 'A',
                 b64Alphabet.getD (b1 % 16 * 4) 'A', '=']
  | b0 :: b1 :: b2 :: _ =>
      [b64Alphabet.getD (b0 / 4) 'A', b64Alphabet.getD (b0 % 4 * 16 + b1 / 16) 'A',
       b64Alphabet.getD (b1 % 16 * 4 + b2 / 64) 'A', b64Alphabet.getD (b2 % 64) 'A']
  | [] => []

/-- Fuel-driven chunking of a byte list into base64 groups of three. -/
def b64Go : Nat → List Nat → List Char
  | 0, _ => []
  | _, [] => []
  | fuel + 1, bytes => b64Group (bytes.take 3) ++ b64Go fuel (bytes.drop 3)

/-- `Buffer.prototype.toString("base64")`. -/
def bytesToBase64 (bytes : List Nat) : String :=
  String.mk (b64Go bytes.length bytes)

/-- `DeviceKeyFormats` returned by `getTargetDeviceFormats` in
`scripts/scrape-device.js` (the variant that also carries the re-encoded
`base58check` form; `base58check` is `none` on the fallback path). -/
structure DeviceFormats where
  original : String
  rawBase58 : String
  hex : String
  base64 : String
  base58check : Option String
deriving DecidableEq, Repr

/-- `getTargetDeviceFormats(targetKey)` from `scripts/scrape-device.js`.
The `try` branch decodes the key as base58 and strips version + checksum
without verifying anything; the `catch` branch (taken exactly when
`bs58.decode` throws) calls `bs58.decode(targetKey)` again, which throws the
same error out of the function — modelled as `none`. -/
def getTargetDeviceFormats (sha : List Nat → List Nat) (targetKey : String) :
    Option DeviceFormats :=
  match bs58decode targetKey with
  | some decoded =>
      let data := stripVersionChecksum decoded
      some { original := targetKey
             rawBase58 := bs58encode data
             hex := bytesToHex data
             base64 := bytesToBase64 data
             base58check := some (base58checkEncode sha data 0) }
  | none =>
      match bs58decode targetKey with
      | some data =>
          some { original := targetKey
                 rawBase58 := targetKey
                 hex := bytesToHex data
                 base64 := bytesToBase64 data
                 base58check := none }
      | none => none

/-! ## Frame decoder (`framedMessages`, identical in all scraper modules) -/

/-- `buffer.readUInt32BE(0)`: big-endian 32-bit length prefix. -/
def readLen (b : List Nat) : Nat :=
  b.getD 0 0 * 16777216 + b.getD 1 0 * 65536 + b.getD 2 0 * 256 + b.getD 3 0

/-- Whether the working buffer holds a complete frame: at least 4 bytes and
at least `4 + length` bytes overall. -/
def frameReady (b : List Nat) : Prop :=
  4 ≤ b.length ∧ 4 + readLen b ≤ b.length

instance (b : List Nat) : Decidable (frameReady b) := by
  unfold frameReady; infer_instance

/-- The inner `while` loop of `framedMessages`: repeatedly emit the frame
behind the 4-byte big-endian length prefix while enough bytes are buffered;
returns the emitted frames and the leftover buffer.  Fuel-driven
(`fuel ≥ b.length` makes it exact, since each emission consumes ≥ 4 bytes). -/
def drainGo : Nat → List Nat → List (List Nat) × List Nat
  | 0, b => ([], b)
  | fuel + 1, b =>
      if frameReady b then
        let len := readLen b
        let p := drainGo fuel (b.drop (4 + len))
        (((b.drop 4).take len) :: p.1, p.2)
      else ([], b)

/-- Drain every complete frame from a buffer. -/
def drain (b : List Nat) : List (List Nat) × List Nat := drainGo b.length b

/-- The chunk loop of `framedMessages`: concatenate each incoming chunk onto
the working buffer and drain; whatever partial frame remains when the stream
ends is dropped. -/
def framesGo : List Nat → List (List Nat) → List (List Nat)
  | _, [] => []
  | buf, c :: cs =>
      let p := drain (buf ++ c)
      p.1 ++ framesGo p.2 cs

/-- `framedMessages(stream)` on a stream delivered as a list of chunks. -/
def framedMessages (chunks : List (List Nat)) : List (List Nat) :=
  framesGo [] chunks

/-- The 4-byte big-endian length header written before a frame. -/
def lenHeader (n : Nat) : List Nat :=
  [n / 16777216 % 256, n / 65536 % 256, n / 256 % 256, n % 256]

/-- A frame as it appears on the wire: length header followed by payload. -/
def encodeFrame (f : List Nat) : List Nat := lenHeader f.length ++ f

/-- A whole logical stream of framed messages. -/
def encodeFrames (fs : List (List Nat)) : List Nat :=
  (fs.map encodeFrame).flatten

/-! ## Minimal protobuf wire reader (`protobufjs/minimal` as used by
`scrapePocRewards.js`) -/

/-- LEB128 varint read at `pos`: returns the (unbounded) accumulated value
and the new position.  Errors mirror `protobufjs`: reading past the end of
the buffer, or a varint longer than 10 bytes. -/
def readVarintGo (buf : List Nat) : Nat → Nat → Nat → Nat → Except String (Nat × Nat)
  | 0, _, _, _ => .error "invalid varint encoding"
  | fuel + 1, pos, shift, acc =>
      if pos < buf.length then
        let byte := buf.getD pos 0
        let acc := acc + byte % 128 * 2 ^ shift
        if byte < 128 then .ok (acc, pos + 1)
        else readVarintGo buf fuel (pos + 1) (shift + 7) acc
      else .error "index out of range"

/-- Read one varint (up to 10 bytes) at `pos`. -/
def readVarint (buf : List Nat) (pos : Nat) : Except String (Nat × Nat) :=
  readVarintGo buf 10 pos 0 0

/-- `reader.uint32()`: varint truncated to 32 bits. -/
def readUint32 (buf : List Nat) (pos : Nat) : Except String (Nat × Nat) :=
  (readVarint buf pos).map (fun p => (p.1 % 4294967296, p.2))

/-- `reader.uint64()`: varint truncated to 64 bits. -/
def readUint64 (buf : List Nat) (pos : Nat) : Except String (Nat × Nat) :=
  (readVarint buf pos).map (fun p => (p.1 % 18446744073709551616, p.2))

/-- `reader.skip(n)`: throws when fewer than `n` bytes remain. -/
def readSkip (buf : List Nat) (pos n : Nat) : Except String Nat :=
  if pos + n ≤ buf.length then .ok (pos + n) else .error "index out of range"

/-- One loop iteration step for `extractSubmessage`; fuel bounds the number
of tag reads (each consumes at least one byte, so `length + 1` is enough). -/
def exGo (frame : List Nat) (fieldNo : Nat) : Nat → Nat → Except String (Option (List Nat))
  | 0, _ => .ok none
  | fuel + 1, pos =>
      if pos < frame.length then
        match readUint32 frame pos with
        | .error e => .error e
        | .ok (tag, pos) =>
            let field := tag / 8
            let wire := tag % 8
            if wire = 2 then
              match readUint32 frame pos with
              | .error e => .error e
              | .ok (len, pos) =>
                  let slice := (frame.drop pos).take len
                  if field = fieldNo then .ok (some slice)
                  else exGo frame fieldNo fuel (pos + len)
            else if wire = 0 then
              match readUint64 frame pos with
              | .error e => .error e
              | .ok (_, pos) => exGo frame fieldNo fuel pos
            else if wire = 1 then
              match readSkip frame pos 8 with
              | .error e => .error e
              | .ok pos => exGo frame fieldNo fuel pos
            else if wire = 5 then
              match readSkip frame pos 4 with
              | .error e => .error e
              | .ok pos => exGo frame fieldNo fuel pos
            else .error ("unexpected wire type " ++ toString wire)
      else .ok none

/-- `extractSubmessage(frame, fieldNo)` from `scrapePocRewards.js`: walk the
top-level wire format, return the first length-delimited field numbered
`fieldNo`, `null` (`none`) when absent, and throw on wire types other than
0, 1, 2, 5. -/
def extractSubmessage (frame : List Nat) (fieldNo : Nat) : Except String (Option (List Nat)) :=
  exGo frame fieldNo (frame.length + 1) 0

/-- Loop of `getPeriodFromFrame`: capture varint fields 1 and 2, skip wire
types 1, 2, 5, and silently ignore (only the tag is consumed) any other wire
type. -/
def periodGo (frame : List Nat) : Nat → Nat → Option Nat → Option Nat →
    Except String (Option (Nat × Nat))
  | 0, _, s, e => .ok (match s, e with | some a, some b => some (a, b) | _, _ => none)
  | fuel + 1, pos, s, e =>
      if pos < frame.length then
        match readUint32 frame pos with
        | .error er => .error er
        | .ok (tag, pos) =>
            let field := tag / 8
            let wire := tag % 8
            if wire = 0 then
              match readUint64 frame pos with
              | .error er => .error er
              | .ok (v, pos) =>
                  periodGo frame fuel pos (if field = 1 then some v else s)
                    (if field = 2 then some v else e)
            else if wire = 2 then
              match readUint32 frame pos with
              | .error er => .error er
              | .ok (len, pos) => periodGo frame fuel (pos + len) s e
            else if wire = 1 then
              match readSkip frame pos 8 with
              | .error er => .error er
              | .ok pos => periodGo frame fuel pos s e
            else if wire = 5 then
              match readSkip frame pos 4 with
              | .error er => .error er
              | .ok pos => periodGo frame fuel pos s e
            else periodGo frame fuel pos s e
      else .ok (match s, e with | some a, some b => some (a, b) | _, _ => none)

/-- `getPeriodFromFrame(frame)`: returns `null` unless both field 1
(period start) and field 2 (period end) were seen. -/
def getPeriodFromFrame (frame : List Nat) : Except String (Option (Nat × Nat)) :=
  periodGo frame (frame.length + 1) 0 none none

/-- Result of `parseRadioRewardV2`. -/
structure RadioParsed where
  hotspotId : Option String
  cbsdId : Option String
  basePoc : Nat
  boostedPoc : Nat
  totalPoc : Nat
deriving DecidableEq, Repr

/-- Raw field state accumulated by the `parseRadioRewardV2` loop. -/
structure RadioState where
  hotspotPayload : Option (List Nat)
  cbsdBytes : Option (List Nat)
  basePoc : Nat
  boostedPoc : Nat
deriving DecidableEq, Repr

/-- Loop of `parseRadioRewardV2`: field 1 = hotspot key bytes, field 2 =
CBSD identifier bytes, field 7 = base PoC, field 8 = boosted PoC; skips
wire types 1 and 5 and silently ignores any other wire type. -/
def radioGo (rr2 : List Nat) : Nat → Nat → RadioState → Except String RadioState
  | 0, _, st => .ok st
  | fuel + 1, pos, st =>
      if pos < rr2.length then
        match readUint32 rr2 pos with
        | .error er => .error er
        | .ok (tag, pos) =>
            let field := tag / 8
            let wire := tag % 8
            if wire = 2 then
              match readUint32 rr2 pos with
              | .error er => .error er
              | .ok (len, pos) =>
                  let slice := (rr2.drop pos).take len
                  radioGo rr2 fuel (pos + len)
                    { st with
                      hotspotPayload := if field = 1 then some slice else st.hotspotPayload
                      cbsdBytes := if field = 2 then some slice else st.cbsdBytes }
            else if wire = 0 then
              match readUint64 rr2 pos with
              | .error er => .error er
              | .ok (v, pos) =>
                  radioGo rr2 fuel pos
                    { st with
                      basePoc := if field = 7 then v else st.basePoc
                      boostedPoc := if field = 8 then v else st.boostedPoc }
            else if wire = 1 then
              match readSkip rr2 pos 8 with
              | .error er => .error er
              | .ok pos => radioGo rr2 fuel pos st
            else if wire = 5 then
              match readSkip rr2 pos 4 with
              | .error er => .error er
              | .ok pos => radioGo rr2 fuel pos st
            else radioGo rr2 fuel pos st
      else .ok st

/-- `parseRadioRewardV2(rr2)` from `scrapePocRewards.js`.  `utf8` stands for
`new TextDecoder().decode` (the runtime's UTF-8 decoder) and `sha` for the
SHA-256 digest used by `base58checkEncodeRaw`.  The hotspot payload is
rendered by byte length: 264 bytes → checksummed base58, 32 bytes → plain
base58, anything else → a diagnostic placeholder. -/
def parseRadioRewardV2 (utf8 : List Nat → String) (sha : List Nat → List Nat)
    (rr2 : List Nat) : Except String RadioParsed :=
  match radioGo rr2 (rr2.length + 1) 0 ⟨none, none, 0, 0⟩ with
  | .error er => .error er
  | .ok st =>
      let hotspotId :=
        match st.hotspotPayload with
        | none => none
        | some p =>
            if p.length = 264 then some (base58checkEncodeRaw sha p 0)
            else if p.length = 32 then some (bs58encode p)
            else some ("<unexpected hotspot_key length " ++ toString p.length ++ " bytes>")
      .ok { hotspotId := hotspotId
            cbsdId := st.cbsdBytes.map utf8
            basePoc := st.basePoc
            boostedPoc := st.boostedPoc
            totalPoc := st.basePoc + st.boostedPoc }

/-- Target formats built by the `getTargetDeviceFormats` variant in
`scrapePocRewards.js` / `scrapeHeliumRewards.js` (no `base58check` field). -/
structure PocFormats where
  original : String
  rawBase58 : String
  hex : String
  base64 : String
deriving DecidableEq, Repr

/-- The four string values of a `PocFormats` object, in `Object.entries`
order. -/
def pocFormatValues (tf : PocFormats) : List String :=
  [tf.original, tf.rawBase58, tf.hex, tf.base64]

/-- `startsWithList hay sub`: does `hay` start with `sub`? -/
def startsWithList : List Char → List Char → Bool
  | _, [] => true
  | [], _ :: _ => false
  | h :: ht, s :: st => h == s && startsWithList ht st

/-- `hasInfixList hay sub`: does `sub` occur contiguously in `hay`? -/
def hasInfixList : List Char → List Char → Bool
  | [], sub => sub.isEmpty
  | h :: t, sub => startsWithList (h :: t) sub || hasInfixList t sub

/-- JS `hay.includes(sub)`. -/
def strIncludes (hay sub : String) : Bool := hasInfixList hay.data sub.data

/-- `matchesTargetDevice(deviceKey, targetFormats)` from
`scrapePocRewards.js`: false for a missing/empty key; then direct equality
with the original, byte equality after base58-decoding both (decode errors
ignored), and finally a substring check of every format value inside the
key. -/
def matchesTargetDevice (deviceKey : Option String) (tf : PocFormats) : Bool :=
  match deviceKey with
  | none => false
  | some k =>
      if k = "" then false
      else if k = tf.original then true
      else
        let byByte : Bool :=
          match bs58decode k, bs58decode tf.original with
          | some a, some b => a == b
          | _, _ => false
        if byByte then true
        else (pocFormatValues tf).any (fun v => strIncludes k v)

/-- One PoC reward entry as pushed by `scrapePocRewards`. -/
structure PocEntry where
  basePoc : Nat
  boostedPoc : Nat
  totalPoc : Nat
  period : Option (Nat × Nat)
  hotspotId : Option String
  cbsdId : Option String
deriving DecidableEq, Repr

/-- Body of the per-frame `try` block in `scrapePocRewards` (lines 609-648):
extract the period, pull sub-message field 8, parse it as a radio reward,
and emit an entry when the CBSD id or hotspot id matches the target.  Any
thrown wire-format error surfaces as `.error`. -/
def perFramePoc (utf8 : List Nat → String) (sha : List Nat → List Nat)
    (tf : PocFormats) (frame : List Nat) : Except String (Option PocEntry) :=
  match getPeriodFromFrame frame with
  | .error er => .error er
  | .ok period =>
      match extractSubmessage frame 8 with
      | .error er => .error er
      | .ok none => .ok none
      | .ok (some rr2) =>
          match parseRadioRewardV2 utf8 sha rr2 with
          | .error er => .error er
          | .ok p =>
              if matchesTargetDevice p.cbsdId tf || matchesTargetDevice p.hotspotId tf then
                .ok (some { basePoc := p.basePoc, boostedPoc := p.boostedPoc,
                            totalPoc := p.totalPoc, period := period,
                            hotspotId := p.hotspotId, cbsdId := p.cbsdId })
              else .ok none

/-- One iteration of the frame loop in `scrapePocRewards`: the message
counter always advances; a thrown error (caught by the per-frame `catch`)
or a non-match contributes nothing. -/
def pocScanStep (utf8 : List Nat → String) (sha : List Nat → List Nat) (tf : PocFormats)
    (acc : Nat × List PocEntry) (frame : List Nat) : Nat × List PocEntry :=
  match perFramePoc utf8 sha tf frame with
  | .error _ => (acc.1 + 1, acc.2)
  | .ok none => (acc.1 + 1, acc.2)
  | .ok (some e) => (acc.1 + 1, acc.2 ++ [e])

/-- The frame loop of `scrapePocRewards` over one object's frames: returns
`(messageCount, pocRewards)`. -/
def pocScanFrames (utf8 : List Nat → String) (sha : List Nat → List Nat) (tf : PocFormats)
    (frames : List (List Nat)) : Nat × List PocEntry :=
  frames.foldl (pocScanStep utf8 sha tf) (0, [])

/-- The entries one frame contributes to `pocRewards`: one entry on a
match, nothing on a non-match or a caught error. -/
def pocEmit (utf8 : List Nat → String) (sha : List Nat → List Nat) (tf : PocFormats)
    (frame : List Nat) : List PocEntry :=
  match perFramePoc utf8 sha tf frame with
  | .ok (some e) => [e]
  | _ => []

/-! ## Single-device scraper (`scrapeHeliumRewards.js`) and the debug
scraper (`scripts/scrape-device.js`) -/

/-- A `long.js` 64-bit value as `protobufjs` decodes a `uint64`: two signed
32-bit halves. -/
structure Long64 where
  low : Int
  high : Int
deriving DecidableEq, Repr

/-- Signed 32-bit reinterpretation of a value below `2^32`. -/
def toInt32 (n : Nat) : Int :=
  if n < 2147483648 then (n : Int) else (n : Int) - 4294967296

/-- The `Long` representation of a 64-bit unsigned value. -/
def longOfNat (v : Nat) : Long64 :=
  ⟨toInt32 (v % 4294967296), toInt32 (v / 4294967296 % 4294967296)⟩

/-- The decoded `gatewayReward` sub-object, reduced to the field the
single-device scraper reads. -/
structure SDGateway where
  dcTransferReward : Option Long64
deriving DecidableEq, Repr

/-- A decoded `mobile_reward_share` message as consumed by
`scrapeHeliumRewards`: the two stringified views used for substring matching
(`JSON.stringify(message)` and `JSON.stringify(enrichBytes(message))`)
plus the `gatewayReward` field. -/
structure SDMsg where
  jsonStr : String
  enrichedStr : String
  gatewayReward : Option SDGateway
deriving DecidableEq, Repr

/-- `containsTargetDevice(message, targetFormats)` from
`scrapeHeliumRewards.js`: substring search of every target format value in
the stringified message, then in the stringified enriched message. -/
def containsTargetDevice (m : SDMsg) (formats : List String) : Bool :=
  formats.any (fun v => strIncludes m.jsonStr v)
    || formats.any (fun v => strIncludes m.enrichedStr v)

/-- `decoded.gatewayReward?.dcTransferReward?.low || 0` — the reward amount
recorded on each entry by `scrapeHeliumRewards` (line 548): the signed low
32-bit half of the 64-bit value, or 0 when the chain is undefined. -/
def sdRewardAmount (m : SDMsg) : Int :=
  match m.gatewayReward with
  | none => 0
  | some g =>
      match g.dcTransferReward with
      | none => 0
      | some l => if l.low = 0 then 0 else l.low

/-- The frame loop of `scrapeHeliumRewards` (lines 537-566): a frame that
fails to decode is skipped; a decoded frame that contains the target device
emits an entry carrying `sdRewardAmount`, whatever the reward amounts are. -/
def sdProcessFrames (frames : List (Option SDMsg)) (formats : List String) : List Int :=
  frames.filterMap (fun f =>
    match f with
    | none => none
    | some m => if containsTargetDevice m formats then some (sdRewardAmount m) else none)

/-- `dcTransfer ? parseInt(dcTransfer.toString(), 10) : 0` — the full
64-bit reward value read by `scripts/scrape-device.js` (lines 237-238) and
by the top-earners scraper: `Long.prototype.toString` prints the whole
unsigned value, so `parseInt` recovers it. -/
def dbgDcValue (dcTransfer : Option Nat) : Nat :=
  match dcTransfer with
  | none => 0
  | some v => v

/-! ## Fleet top-N scan (`topEarnersScheduledScrape.js`) -/

/-- A decoded `mobile_reward_share` as consumed by the top-earners scraper:
the 64-bit DC transfer value (absent when the field chain is undefined) and
the device key bytes found by `pickDeviceBytesFromGatewayReward` (absent
when no byte-valued candidate field exists). -/
structure TEDecoded where
  dcTransferReward : Option Nat
  deviceBytes : Option (List Nat)
deriving DecidableEq, Repr

/-- `deviceKeyStringFromDecoded`: `null` for missing or empty bytes,
otherwise the version-0 checksummed base58 encoding. -/
def teDeviceKey (sha : List Nat → List Nat) (dec : TEDecoded) : Option String :=
  match dec.deviceBytes with
  | none => none
  | some bs => if bs.length = 0 then none else some (base58checkEncode sha bs 0)

/-- The DC amount read by the top-earners loop (`parseInt` of the full
unsigned value; 0 when absent). -/
def teDc (dec : TEDecoded) : Nat := dbgDcValue dec.dcTransferReward

/-- `cutoffs[windowDays] = endTs - windowDays * 24*60*60*1000`. -/
def teCutoff (endTs : Int) (w : Nat) : Int := endTs - (w : Int) * 86400000

/-- One frame of the top-earners scan: the object's embedded timestamp and
the decode result (`none` when `MobileRewardShare.decode` threw). -/
def teStep (sha : List Nat → List Nat) (windows : List Nat) (endTs : Int)
    (totals : Nat → String → Nat) (fr : Int × Option TEDecoded) : Nat → String → Nat :=
  match fr.2 with
  | none => totals
  | some dec =>
      let dc := teDc dec
      if dc = 0 then totals
      else
        match teDeviceKey sha dec with
        | none => totals
        | some k => fun w d =>
            if w ∈ windows ∧ teCutoff endTs w ≤ fr.1 ∧ d = k then totals w d + dc
            else totals w d

/-- Per-window per-device cumulative DC totals after folding a whole event
stream (lines 196-213 of the top-earners scraper), as the map
`windowDays → deviceKey → total`. -/
def teTotals (sha : List Nat → List Nat) (windows : List Nat) (endTs : Int)
    (frames : List (Int × Option TEDecoded)) : Nat → String → Nat :=
  frames.foldl (teStep sha windows endTs) (fun _ _ => 0)

/-! ## Object enumeration (`listGzKeysInRange`) -/

/-- One `ListObjectsV2` response page. -/
structure S3Page where
  contents : List String
  isTruncated : Bool
  nextContinuationToken : Option String

/-- Is `c` an ASCII decimal digit? -/
def isDigitChar (c : Char) : Bool := 48 ≤ c.toNat && c.toNat ≤ 57

/-- The fixed-width regex `\.(\d{13})\.gz$`: a match is exactly the last 17
characters — `'.'`, thirteen digits, `".gz"` — and yields the digits' value
(`parseInt(m[1], 10)`). -/
def matchTs13 (cs : List Char) : Option Nat :=
  if 17 ≤ cs.length then
    let t := cs.drop (cs.length - 17)
    if t.headD ' ' == '.' && ((t.drop 1).take 13).all isDigitChar
        && t.drop 14 == ['.', 'g', 'z'] then
      some (natFold 10 (((t.drop 1).take 13).map (fun c => c.toNat - 48)))
    else none
  else none

/-- `key.endsWith(".gz")`. -/
def endsWithGz (key : String) : Bool := List.isSuffixOf ['.', 'g', 'z'] key.data

/-- The per-key body of the listing loop: skip keys not ending in `.gz`;
parse the embedded timestamp (0 when the regex fails); keep the key iff the
timestamp lies in `[startTs, endTs]`. -/
def keyEntry (startTs endTs : Int) (key : String) : Option (String × Nat) :=
  if endsWithGz key then
    let ts := (matchTs13 key.data).getD 0
    if startTs ≤ (ts : Int) ∧ (ts : Int) ≤ endTs then some (key, ts) else none
  else none

/-- The pagination loop: process the current page, and continue with the
next page only while the response is truncated and carries a continuation
token. -/
def listLoop (startTs endTs : Int) : List S3Page → List (String × Nat)
  | [] => []
  | p :: rest =>
      p.contents.filterMap (keyEntry startTs endTs)
        ++ (if p.isTruncated ∧ p.nextContinuationToken.isSome
            then listLoop startTs endTs rest else [])

/-- The comparator `(a, b) => a.ts - b.ts` orders entries by timestamp. -/
def byTs (a b : String × Nat) : Prop := a.2 ≤ b.2

instance : DecidableRel byTs := fun a b => Nat.decLe a.2 b.2

instance : IsTotal (String × Nat) byTs := ⟨fun a b => Nat.le_total a.2 b.2⟩

instance : IsTrans (String × Nat) byTs := ⟨fun _ _ _ => Nat.le_trans⟩

/-- `listGzKeysInRange`: collect matching keys across all pages, then
`keys.sort((a, b) => a.ts - b.ts)` (a stable ascending sort by timestamp). -/
def listGzKeysInRange (startTs endTs : Int) (pages : List S3Page) : List (String × Nat) :=
  List.insertionSort byTs (listLoop startTs endTs pages)

/-- A store whose pagination metadata is well-formed: every page before the
last reports itself truncated and supplies a continuation token. -/
def wellPaged : List S3Page → Prop
  | [] => True
  | [_] => True
  | p :: q :: rest => (p.isTruncated = true ∧ p.nextContinuationToken.isSome = true)
      ∧ wellPaged (q :: rest)

/-- The set of entries the spec says survive the filter, stated over the
flattened listing: keys ending in the `.gz` suffix whose embedded 13-digit
timestamp (0 when unparseable) lies within `[startMs, endMs]` inclusive. -/
def specKeptEntries (startMs endMs : Int) (keys : List String) : List (String × Nat) :=
  keys.filterMap (fun k =>
    let ts := (matchTs13 k.data).getD 0
    if endsWithGz k ∧ startMs ≤ (ts : Int) ∧ (ts : Int) ≤ endMs then some (k, ts) else none)


/-! ## Digit-expansion lemmas -/

theorem digitsGo_zero (b fuel : Nat) (acc : List Nat) : digitsGo b fuel 0 acc = acc := by
  cases fuel <;> simp [digitsGo]

theorem digitsGo_congr (b : Nat) (hb : 2 ≤ b) :
    ∀ n fuel₁ fuel₂ acc, n ≤ fuel₁ → n ≤ fuel₂ →
      digitsGo b fuel₁ n acc = digitsGo b fuel₂ n acc := by
  intro n
  induction n using Nat.strong_induction_on with
  | _ n ih =>
    intro fuel₁ fuel₂ acc h1 h2
    rcases Nat.eq_zero_or_pos n with hn | hn
    · subst hn; rw [digitsGo_zero, digitsGo_zero]
    · obtain ⟨f1, rfl⟩ : ∃ f, fuel₁ = f + 1 := ⟨fuel₁ - 1, by omega⟩
      obtain ⟨f2, rfl⟩ : ∃ f, fuel₂ = f + 1 := ⟨fuel₂ - 1, by omega⟩
      have hne : ¬ n = 0 := by omega
      simp only [digitsGo, if_neg hne]
      have hdiv : n / b < n := Nat.div_lt_self hn (by omega)
      exact ih (n / b) hdiv f1 f2 _ (by omega) (by omega)

theorem digitsGo_acc (b : Nat) :
    ∀ fuel n acc, digitsGo b fuel n acc = digitsGo b fuel n [] ++ acc := by
  intro fuel
  induction fuel with
  | zero => intro n acc; simp [digitsGo]
  | succ f ih =>
    intro n acc
    by_cases hn : n = 0
    · simp [digitsGo, hn]
    · simp only [digitsGo, if_neg hn]
      rw [ih (n / b) (n % b :: acc), ih (n / b) [n % b]]
      simp

theorem natDigitsBE_eq (b : Nat) (hb : 2 ≤ b) (n : Nat) (hn : n ≠ 0) :
    natDigitsBE b n = natDigitsBE b (n / b) ++ [n % b] := by
  unfold natDigitsBE
  obtain ⟨m, rfl⟩ : ∃ m, n = m + 1 := ⟨n - 1, by omega⟩
  simp only [digitsGo, if_neg hn]
  rw [digitsGo_acc]
  congr 1
  exact digitsGo_congr b hb _ m _ []
    (by have h : (m + 1) / b < m + 1 := Nat.div_lt_self (by omega) (by omega); omega)
    (Nat.le_refl _)

theorem digitsGo_mem_lt (b : Nat) (hb : 0 < b) :
    ∀ fuel n acc, (∀ d ∈ acc, d < b) → ∀ d ∈ digitsGo b fuel n acc, d < b := by
  intro fuel
  induction fuel with
  | zero => intro n acc hacc; simpa [digitsGo] using hacc
  | succ f ih =>
    intro n acc hacc d hd
    by_cases hn : n = 0
    · rw [digitsGo, if_pos hn] at hd; exact hacc d hd
    · rw [digitsGo, if_neg hn] at hd
      refine ih (n / b) (n % b :: acc) ?_ d hd
      intro x hx
      rcases List.mem_cons.mp hx with h | h
      · subst h; exact Nat.mod_lt _ hb
      · exact hacc x h

theorem natDigitsBE_mem_lt (b : Nat) (hb : 0 < b) (n : Nat) :
    ∀ d ∈ natDigitsBE b n, d < b :=
  digitsGo_mem_lt b hb n n [] (by simp)

theorem natFold_append_single (b : Nat) (xs : List Nat) (d : Nat) :
    natFold b (xs ++ [d]) = natFold b xs * b + d := by
  simp [natFold, List.foldl_append]

theorem natFold_digitsBE (b : Nat) (hb : 2 ≤ b) :
    ∀ n, natFold b (natDigitsBE b n) = n := by
  intro n
  induction n using Nat.strong_induction_on with
  | _ n ih =>
    by_cases hn : n = 0
    · subst hn; rfl
    · rw [natDigitsBE_eq b hb n hn, natFold_append_single,
        ih (n / b) (Nat.div_lt_self (Nat.pos_of_ne_zero hn) (by omega)), Nat.mul_comm]
      exact Nat.div_add_mod n b

theorem natFold_from_ge (b : Nat) (hb : 1 ≤ b) :
    ∀ (l : List Nat) (a : Nat), a ≤ l.foldl (fun x d => x * b + d) a := by
  intro l
  induction l with
  | nil => intro a; exact Nat.le_refl a
  | cons d t ih =>
    intro a
    refine Nat.le_trans ?_ (ih (a * b + d))
    have h1 : a ≤ a * b := Nat.le_mul_of_pos_right a (by omega)
    omega

theorem natFold_ne_zero (b : Nat) (hb : 1 ≤ b) (x : Nat) (xs : List Nat) (hx : x ≠ 0) :
    natFold b (x :: xs) ≠ 0 := by
  have h1 : natFold b (x :: xs) = xs.foldl (fun a d => a * b + d) x := by
    simp [natFold]
  have h2 := natFold_from_ge b hb xs x
  omega

theorem natFold_replicate_zero (b z : Nat) (l : List Nat) :
    natFold b (List.replicate z 0 ++ l) = natFold b l := by
  induction z with
  | zero => rfl
  | succ m ih =>
    have : List.replicate (m + 1) 0 ++ l = 0 :: (List.replicate m 0 ++ l) := by
      simp [List.replicate]
    rw [this]
    simpa [natFold] using ih

theorem digitsBE_natFold (b : Nat) (hb : 2 ≤ b) :
    ∀ ds : List Nat, (∀ d ∈ ds, d < b) → ds.headD 1 ≠ 0 →
      natDigitsBE b (natFold b ds) = ds := by
  intro ds
  induction ds using List.reverseRecOn with
  | nil => intro _ _; rfl
  | append_singleton xs d ih =>
    intro hlt hhead
    rw [natFold_append_single]
    have hdb : d < b := hlt d (by simp)
    cases xs with
    | nil =>
      have hd0 : d ≠ 0 := by simpa using hhead
      have hval : natFold b [] * b + d = d := by simp [natFold]
      rw [hval, natDigitsBE_eq b hb d hd0, Nat.div_eq_of_lt hdb, Nat.mod_eq_of_lt hdb]
      rfl
    | cons x t =>
      have hx : x ≠ 0 := by simpa using hhead
      have hm : natFold b (x :: t) ≠ 0 := natFold_ne_zero b (by omega) x t hx
      set m := natFold b (x :: t) with hmdef
      have hne : m * b + d ≠ 0 := by
        have : 1 ≤ m := Nat.pos_of_ne_zero hm
        have : b ≤ m * b := by nlinarith
        omega
      rw [natDigitsBE_eq b hb _ hne]
      have hdiv : (m * b + d) / b = m := by
        rw [Nat.add_comm, Nat.add_mul_div_right _ _ (by omega : 0 < b),
          Nat.div_eq_of_lt hdb]
        omega
      have hmod : (m * b + d) % b = d := by
        rw [Nat.add_comm, Nat.add_mul_mod_self_right, Nat.mod_eq_of_lt hdb]
      rw [hdiv, hmod,
        ih (fun y hy => hlt y (by
          simp only [List.cons_append, List.mem_cons, List.mem_append] at hy ⊢
          tauto)) (by simpa using hx)]

theorem leadZeros_decomp (bytes : List Nat) :
    ∃ rest, bytes = List.replicate (countLeadZeros bytes) 0 ++ rest ∧ rest.headD 1 ≠ 0 := by
  induction bytes with
  | nil => exact ⟨[], by simp [countLeadZeros]⟩
  | cons x t ih =>
    by_cases hx : x = 0
    · obtain ⟨rest, h1, h2⟩ := ih
      refine ⟨rest, ?_, h2⟩
      subst hx
      rw [countLeadZeros, if_pos rfl]
      simpa [List.replicate] using congrArg (List.cons 0) h1
    · exact ⟨x :: t, by simp [countLeadZeros, hx], by simpa using hx⟩

theorem natDigitsBE_cons (b : Nat) (hb : 2 ≤ b) :
    ∀ n, n ≠ 0 → ∃ d t, natDigitsBE b n = d :: t ∧ d ≠ 0 ∧ d < b := by
  intro n
  induction n using Nat.strong_induction_on with
  | _ n ih =>
    intro hn
    rw [natDigitsBE_eq b hb n hn]
    by_cases hq : n / b = 0
    · have hlt : n < b := by
        rcases Nat.lt_or_ge n b with h | h
        · exact h
        · exact absurd hq (by have := (Nat.one_le_div_iff (by omega : 0 < b)).mpr h; omega)
      rw [hq]
      exact ⟨n % b, [], by simp [natDigitsBE, digitsGo], by rw [Nat.mod_eq_of_lt hlt]; exact hn,
        Nat.mod_lt _ (by omega)⟩
    · obtain ⟨d, t, hdt, hd0, hdb⟩ :=
        ih (n / b) (Nat.div_lt_self (Nat.pos_of_ne_zero hn) (by omega)) hq
      exact ⟨d, t ++ [n % b], by rw [hdt]; simp, hd0, hdb⟩

/-! ## Base58 alphabet facts (finite checks) -/

theorem b58CharIdx_one : b58CharIdx '1' = some 0 := by decide

theorem b58CharIdx_chr : ∀ d, d < 58 → b58CharIdx (b58Chr d) = some d := by decide

theorem b58Chr_ne_one : ∀ d, d < 58 → d ≠ 0 → b58Chr d ≠ '1' := by decide

/-! ## Traversal lemmas -/

theorem mapOpt_append (f : α → Option β) :
    ∀ l1 l2 r1 r2, mapOpt f l1 = some r1 → mapOpt f l2 = some r2 →
      mapOpt f (l1 ++ l2) = some (r1 ++ r2) := by
  intro l1
  induction l1 with
  | nil =>
    intro l2 r1 r2 h1 h2
    simp only [mapOpt] at h1
    cases h1
    simpa using h2
  | cons a t ih =>
    intro l2 r1 r2 h1 h2
    cases hfa : f a with
    | none => rw [mapOpt, hfa] at h1; cases h1
    | some v =>
      cases hmt : mapOpt f t with
      | none => rw [mapOpt, hfa, hmt] at h1; cases h1
      | some vs =>
        rw [mapOpt, hfa, hmt] at h1
        cases h1
        have hrec := ih l2 vs r2 hmt h2
        show (match f a, mapOpt f (t ++ l2) with
          | some b, some bs => some (b :: bs)
          | _, _ => none) = some (v :: (vs ++ r2))
        rw [hfa, hrec]

theorem mapOpt_replicate_one (z : Nat) :
    mapOpt b58CharIdx (List.replicate z '1') = some (List.replicate z 0) := by
  induction z with
  | zero => rfl
  | succ m ih => simp [List.replicate, mapOpt, b58CharIdx_one, ih]

theorem mapOpt_map_chr (ds : List Nat) (h : ∀ d ∈ ds, d < 58) :
    mapOpt b58CharIdx (ds.map b58Chr) = some ds := by
  induction ds with
  | nil => rfl
  | cons d t ih =>
    have hd : d < 58 := h d (by simp)
    simp [mapOpt, b58CharIdx_chr d hd, ih (fun x hx => h x (by simp [hx]))]

theorem countLeadOnes_replicate (z : Nat) : countLeadOnes (List.replicate z '1') = z := by
  induction z with
  | zero => rfl
  | succ m ih => simp [List.replicate, countLeadOnes, ih]

theorem countLeadOnes_replicate_append (z : Nat) (c : Char) (t : List Char) (hc : c ≠ '1') :
    countLeadOnes (List.replicate z '1' ++ c :: t) = z := by
  induction z with
  | zero => simp [countLeadOnes, hc]
  | succ m ih => simp [List.replicate, countLeadOnes, ih]

/-! ## Round trip of `bs58` -/

theorem natDigitsBE_zero (b : Nat) : natDigitsBE b 0 = [] := rfl

theorem bs58_roundtrip (bytes : List Nat) (h : ∀ x ∈ bytes, x < 256) :
    bs58decode (bs58encode bytes) = some bytes := by
  obtain ⟨rest, hbytes, hrest⟩ := leadZeros_decomp bytes
  set z := countLeadZeros bytes with hz
  have hfold : natFold 256 bytes = natFold 256 rest := by
    conv_lhs => rw [hbytes]
    exact natFold_replicate_zero 256 z rest
  show bs58decode (String.mk (List.replicate z '1'
    ++ (natDigitsBE 58 (natFold 256 bytes)).map b58Chr)) = some bytes
  cases rest with
  | nil =>
    have h0 : natFold 256 bytes = 0 := by rw [hfold]; rfl
    rw [h0, natDigitsBE_zero]
    have hdec : bs58decode (String.mk (List.replicate z '1' ++ List.map b58Chr []))
        = some (List.replicate z 0 ++ natDigitsBE 256 (natFold 58 (List.replicate z 0))) := by
      unfold bs58decode
      rw [show (String.mk (List.replicate z '1' ++ List.map b58Chr [])).data
        = List.replicate z '1' ++ List.map b58Chr [] from rfl]
      rw [show List.map b58Chr [] = ([] : List Char) from rfl, List.append_nil,
        mapOpt_replicate_one z, countLeadOnes_replicate z]
    have h58 : natFold 58 (List.replicate z 0) = 0 := by
      have hplain := natFold_replicate_zero 58 z []
      simpa using hplain
    rw [hdec, h58, natDigitsBE_zero, hbytes]
  | cons x xs =>
    have hx : x ≠ 0 := by simpa using hrest
    have hn : natFold 256 bytes ≠ 0 := by
      rw [hfold]; exact natFold_ne_zero 256 (by omega) x xs hx
    set n := natFold 256 bytes with hndef
    obtain ⟨d, t, hds, hd0, hd58⟩ := natDigitsBE_cons 58 (by omega) n hn
    have hmem58 : ∀ y ∈ natDigitsBE 58 n, y < 58 := natDigitsBE_mem_lt 58 (by omega) n
    have hlead : countLeadOnes (List.replicate z '1' ++ (natDigitsBE 58 n).map b58Chr) = z := by
      rw [hds]
      exact countLeadOnes_replicate_append z _ _ (b58Chr_ne_one d hd58 hd0)
    have hdec : bs58decode (String.mk (List.replicate z '1' ++ (natDigitsBE 58 n).map b58Chr))
        = some (List.replicate z 0
            ++ natDigitsBE 256 (natFold 58 (List.replicate z 0 ++ natDigitsBE 58 n))) := by
      unfold bs58decode
      rw [show (String.mk (List.replicate z '1' ++ (natDigitsBE 58 n).map b58Chr)).data
        = List.replicate z '1' ++ (natDigitsBE 58 n).map b58Chr from rfl]
      rw [mapOpt_append b58CharIdx _ _ _ _ (mapOpt_replicate_one z)
        (mapOpt_map_chr _ hmem58), hlead]
    have h58 : natFold 58 (List.replicate z 0 ++ natDigitsBE 58 n) = n := by
      rw [natFold_replicate_zero, natFold_digitsBE 58 (by omega)]
    have hmem256 : ∀ y ∈ x :: xs, y < 256 := by
      intro y hy
      exact h y (by rw [hbytes]; exact List.mem_append_right _ hy)
    have hback : natDigitsBE 256 n = x :: xs := by
      rw [hfold]
      exact digitsBE_natFold 256 (by omega) (x :: xs) hmem256 (by simpa using hx)
    rw [hdec, h58, hback, hbytes]

/-- C3: for every byte payload and version byte, decoding the
checksummed-base58 encoding — base58-decoding the string, stripping the last
4 bytes as checksum and the first byte as version — returns exactly the
original `(payload, v)`.  The external digest `sha` need only produce a
(first-4-bytes) checksum of 4 byte values, as SHA-256 does. -/
theorem base58check_roundtrip (sha : List Nat → List Nat) (payload : List Nat) (v : Nat)
    (hv : v < 256) (hp : ∀ x ∈ payload, x < 256)
    (hlen : ((sha (sha (v :: payload))).take 4).length = 4)
    (hcs : ∀ x ∈ (sha (sha (v :: payload))).take 4, x < 256) :
    base58checkDecode (base58checkEncode sha payload v) = some (v, payload) := by
  have hmod : v % 256 = v := Nat.mod_eq_of_lt hv
  set csum := (sha (sha (v :: payload))).take 4 with hcdef
  have henc : base58checkEncode sha payload v = bs58encode ((v :: payload) ++ csum) := by
    simp only [base58checkEncode, hmod, hcdef]
  have hall : ∀ x ∈ (v :: payload) ++ csum, x < 256 := by
    intro x hx
    rcases List.mem_append.mp hx with h1 | h2
    · rcases List.mem_cons.mp h1 with h | h
      · subst h; exact hv
      · exact hp x h
    · exact hcs x h2
  have hstrip : stripVersionChecksum ((v :: payload) ++ csum) = payload := by
    unfold stripVersionChecksum
    rw [List.cons_append]
    have hL : (v :: (payload ++ csum)).length - 5 = payload.length := by
      simp [List.length_append, hlen]
    rw [hL, List.drop_one, List.tail_cons, List.take_left]
  unfold base58checkDecode
  rw [henc, bs58_roundtrip _ hall]
  show some (((v :: payload) ++ csum).headD 0, stripVersionChecksum ((v :: payload) ++ csum))
    = some (v, payload)
  rw [hstrip]
  rfl

/-- Witness for C3 at a concrete payload, version and digest. -/
theorem base58check_roundtrip_witness :
    base58checkDecode (base58checkEncode (fun _ => [9, 8, 7, 6]) [1, 2] 0) = some (0, [1, 2]) :=
  base58check_roundtrip (fun _ => [9, 8, 7, 6]) [1, 2] 0 (by decide) (by decide)
    (by decide) (by decide)

/-- C10: the two checksummed-base58 encoders of the PoC scraping module,
`base58checkEncode` and `base58checkEncodeRaw`, compute the same string for
every byte payload and version byte (and any digest function). -/
theorem base58checkEncode_raw_equiv (sha : List Nat → List Nat) (payload : List Nat)
    (version : Nat) :
    base58checkEncode sha payload version = base58checkEncodeRaw sha payload version := rfl

/-- C9 counterexample: for the key `"0"` (not valid base58: `'0'` is outside
the alphabet) `getTargetDeviceFormats` raises the decode error instead of
returning fallback formats — the `catch` branch re-runs the failing
`bs58.decode`.  The claim says no error is raised and the whole input is
returned as the raw base58 form. -/
theorem getTargetDeviceFormats_error_on_invalid :
    getTargetDeviceFormats (fun l => l) "0" = none := by decide

/-- C9 amended: `deriveFormats` raises an error exactly when the input is
not valid base58 (the fallback re-decodes and the error propagates, so the
fallback formats are never returned); a valid-base58 key always succeeds,
even when it is too short to hold a version byte and 4-byte checksum, in
which case the stripped payload is empty. -/
theorem getTargetDeviceFormats_amended :
    (∀ (sha : List Nat → List Nat) (k : String),
        getTargetDeviceFormats sha k = none ↔ bs58decode k = none)
    ∧ (∀ (sha : List Nat → List Nat) (k : String) (bs : List Nat),
        bs58decode k = some bs → bs.length ≤ 5 →
        ∃ fm, getTargetDeviceFormats sha k = some fm ∧ fm.rawBase58 = "") := by
  constructor
  · intro sha k
    cases hdec : bs58decode k with
    | none => simp [getTargetDeviceFormats, hdec]
    | some bs => simp [getTargetDeviceFormats, hdec]
  · intro sha k bs hdec hshort
    have hdata : stripVersionChecksum bs = [] := by
      unfold stripVersionChecksum
      rw [show bs.length - 5 = 0 by omega]
      rfl
    have hfm : getTargetDeviceFormats sha k
        = some ⟨k, bs58encode (stripVersionChecksum bs), bytesToHex (stripVersionChecksum bs),
            bytesToBase64 (stripVersionChecksum bs),
            some (base58checkEncode sha (stripVersionChecksum bs) 0)⟩ := by
      simp only [getTargetDeviceFormats, hdec]
    refine ⟨_, hfm, ?_⟩
    show bs58encode (stripVersionChecksum bs) = ""
    rw [hdata]
    rfl

/-- Witness for C9's amended theorem: the one-character valid base58 key
`"1"` decodes to the single zero byte and yields formats with an empty raw
payload, with no error. -/
theorem getTargetDeviceFormats_amended_witness :
    ∃ fm, getTargetDeviceFormats (fun l => l) "1" = some fm ∧ fm.rawBase58 = "" :=
  getTargetDeviceFormats_amended.2 (fun l => l) "1" [0] (by decide) (by decide)

/-- C1 (evidence of the code bug): for a frame whose decoded
`dcTransferReward` is `4294967296 = 2^32` (`Long` halves `low = 0`,
`high = 1`), `scrapeHeliumRewards` records a reward amount of `0` — it reads
only the signed low 32-bit half — while the full unsigned 64-bit value the
claim (and `scripts/scrape-device.js`, whose extraction is also evaluated
here) prescribes is `4294967296 ≠ 0`. -/
theorem dcTransferReward_low_truncation :
    sdRewardAmount ⟨"", "", some ⟨some (longOfNat 4294967296)⟩⟩ = 0
    ∧ dbgDcValue (some 4294967296) = 4294967296
    ∧ (4294967296 : Nat) ≠ 0 := by
  refine ⟨by decide, rfl, by decide⟩

/-- C2 counterexample: a decoded frame that matches the target but carries
no reward at all (`gatewayReward` absent, every reward amount 0) still emits
an entry in `scrapeHeliumRewards` — emission does not require a non-zero
reward amount, contradicting the claim for single-device mode. -/
theorem sd_zero_reward_emitted :
    sdProcessFrames [some ⟨"k", "k", none⟩] ["k"] = [0]
    ∧ sdRewardAmount ⟨"k", "k", none⟩ = 0 := by
  refine ⟨by decide, rfl⟩

/-- C2 amended: in fleet mode (top-earners scan) a frame contributes to the
totals only if it decoded, its DC transfer amount is non-zero and a device
key was derived; in single-device mode (`scrapeHeliumRewards`) an entry is
emitted for a decoded frame exactly when the device matches the target,
regardless of the reward amounts. -/
theorem reward_emission_conditions :
    (∀ (sha : List Nat → List Nat) (windows : List Nat) (endTs : Int)
        (totals : Nat → String → Nat) (ts : Int) (dec : Option TEDecoded),
        (dec = none ∨ ∃ d, dec = some d ∧ (teDc d = 0 ∨ teDeviceKey sha d = none)) →
        teStep sha windows endTs totals (ts, dec) = totals)
    ∧ (∀ (m : SDMsg) (formats : List String),
        sdProcessFrames [some m] formats
          = if containsTargetDevice m formats then [sdRewardAmount m] else []) := by
  constructor
  · intro sha windows endTs totals ts dec hcond
    rcases hcond with h | ⟨d, rfl, h⟩
    · subst h; rfl
    · rcases h with h | h
      · simp [teStep, h]
      · simp [teStep, h]
  · intro m formats
    by_cases hc : containsTargetDevice m formats
    · simp [sdProcessFrames, hc]
    · simp [sdProcessFrames, hc]

/-- Witness for C2's amended theorem: a decoded frame with a zero DC amount
leaves the fleet totals untouched. -/
theorem reward_emission_conditions_witness :
    teStep (fun l => l) [1] 0 (fun _ _ => 0)
      (5, some ⟨some 0, some [1]⟩) = (fun _ _ => 0) :=
  reward_emission_conditions.1 (fun l => l) [1] 0 (fun _ _ => 0) 5 _
    (Or.inr ⟨_, rfl, Or.inl rfl⟩)

/-! ## Frame decoder lemmas -/

theorem drainGo_congr :
    ∀ fuel₁, ∀ fuel₂ (b : List Nat), b.length ≤ fuel₁ → b.length ≤ fuel₂ →
      drainGo fuel₁ b = drainGo fuel₂ b := by
  intro fuel₁
  induction fuel₁ using Nat.strong_induction_on with
  | _ fuel₁ ih =>
    intro fuel₂ b h1 h2
    by_cases hr : frameReady b
    · have h4 : 4 ≤ b.length := hr.1
      obtain ⟨f1, rfl⟩ : ∃ f, fuel₁ = f + 1 := ⟨fuel₁ - 1, by omega⟩
      obtain ⟨f2, rfl⟩ : ∃ f, fuel₂ = f + 1 := ⟨fuel₂ - 1, by omega⟩
      simp only [drainGo, if_pos hr]
      have hrest : (b.drop (4 + readLen b)).length ≤ b.length - 4 := by
        simp [List.length_drop]
        omega
      rw [ih f1 (by omega) f2 (b.drop (4 + readLen b)) (by omega) (by omega)]
    · cases fuel₁ with
      | zero =>
        cases fuel₂ with
        | zero => rfl
        | succ g => simp [drainGo, if_neg hr]
      | succ f =>
        cases fuel₂ with
        | zero => simp [drainGo, if_neg hr]
        | succ g => simp [drainGo, if_neg hr]

theorem drain_eq (b : List Nat) :
    drain b =
      if frameReady b then
        ((b.drop 4).take (readLen b) :: (drain (b.drop (4 + readLen b))).1,
          (drain (b.drop (4 + readLen b))).2)
      else ([], b) := by
  by_cases hr : frameReady b
  · have h4 : 4 ≤ b.length := hr.1
    rw [if_pos hr]
    show drainGo b.length b = _
    obtain ⟨L, hL⟩ : ∃ L, b.length = L + 1 := ⟨b.length - 1, by omega⟩
    rw [hL]
    simp only [drainGo, if_pos hr]
    have : drainGo L (b.drop (4 + readLen b))
        = drainGo (b.drop (4 + readLen b)).length (b.drop (4 + readLen b)) := by
      refine drainGo_congr L _ _ ?_ (Nat.le_refl _)
      simp [List.length_drop]
      omega
    rw [this]
    rfl
  · rw [if_neg hr]
    show drainGo b.length b = ([], b)
    cases hL : b.length with
    | zero => rfl
    | succ L => simp [drainGo, if_neg hr]

theorem drain_not_ready (b : List Nat) (h : ¬ frameReady b) : drain b = ([], b) := by
  rw [drain_eq, if_neg h]

theorem drain_append :
    ∀ (n : Nat) (b c : List Nat), b.length ≤ n →
      drain (b ++ c)
        = ((drain b).1 ++ (drain ((drain b).2 ++ c)).1, (drain ((drain b).2 ++ c)).2) := by
  intro n
  induction n using Nat.strong_induction_on with
  | _ n ih =>
    intro b c hbn
    by_cases hr : frameReady b
    · have h4 : 4 ≤ b.length := hr.1
      have hlenle : 4 + readLen b ≤ b.length := hr.2
      have hread : readLen (b ++ c) = readLen b := by
        unfold readLen
        rw [List.getD_append _ _ _ _ (by omega), List.getD_append _ _ _ _ (by omega),
          List.getD_append _ _ _ _ (by omega), List.getD_append _ _ _ _ (by omega)]
      have hready2 : frameReady (b ++ c) := by
        constructor
        · simp [List.length_append]; omega
        · rw [hread]; simp [List.length_append]; omega
      have hdrop : (b ++ c).drop (4 + readLen b) = b.drop (4 + readLen b) ++ c :=
        List.drop_append_of_le_length (by omega)
      have hframe : ((b ++ c).drop 4).take (readLen b) = (b.drop 4).take (readLen b) := by
        rw [List.drop_append_of_le_length (by omega)]
        exact List.take_append_of_le_length (by simp [List.length_drop]; omega)
      rw [drain_eq (b ++ c), if_pos hready2, hread, hdrop, hframe]
      rw [drain_eq b, if_pos hr]
      have hlt : (b.drop (4 + readLen b)).length < n := by
        simp [List.length_drop]; omega
      rw [ih (b.drop (4 + readLen b)).length hlt _ c (Nat.le_refl _)]
      simp
    · rw [drain_not_ready b hr]
      simp

theorem drain_snd_stall : ∀ (n : Nat) (b : List Nat), b.length ≤ n →
    drain ((drain b).2) = ([], (drain b).2) := by
  intro n
  induction n using Nat.strong_induction_on with
  | _ n ih =>
    intro b hbn
    by_cases hr : frameReady b
    · have h4 : 4 ≤ b.length := hr.1
      have hlenle : 4 + readLen b ≤ b.length := hr.2
      rw [drain_eq b, if_pos hr]
      exact ih (b.drop (4 + readLen b)).length (by simp [List.length_drop]; omega)
        _ (Nat.le_refl _)
    · rw [drain_not_ready b hr]
      exact drain_not_ready b hr

theorem framesGo_join : ∀ (cs : List (List Nat)) (buf : List Nat),
    drain buf = ([], buf) → framesGo buf cs = (drain (buf ++ cs.flatten)).1 := by
  intro cs
  induction cs with
  | nil =>
    intro buf hbuf
    show ([] : List (List Nat)) = (drain (buf ++ [])).1
    rw [List.append_nil, hbuf]
  | cons c cs ih =>
    intro buf hbuf
    show (drain (buf ++ c)).1 ++ framesGo (drain (buf ++ c)).2 cs = _
    rw [ih (drain (buf ++ c)).2 (drain_snd_stall (buf ++ c).length (buf ++ c) (Nat.le_refl _))]
    have hflat : buf ++ (c :: cs).flatten = (buf ++ c) ++ cs.flatten := by
      simp [List.flatten]
    rw [hflat, drain_append (buf ++ c).length (buf ++ c) cs.flatten (Nat.le_refl _)]

theorem framedMessages_eq_drain (cs : List (List Nat)) :
    framedMessages cs = (drain cs.flatten).1 := by
  have h := framesGo_join cs [] rfl
  simpa [framedMessages] using h

theorem readLen_lenHeader (n : Nat) (h : n < 4294967296) (rest : List Nat) :
    readLen (lenHeader n ++ rest) = n := by
  simp only [readLen, lenHeader, List.cons_append, List.nil_append,
    List.getD_cons_zero, List.getD_cons_succ]
  omega

theorem drain_encodeFrame (f rest : List Nat) (h : f.length < 4294967296) :
    drain (encodeFrame f ++ rest) = (f :: (drain rest).1, (drain rest).2) := by
  have hassoc : encodeFrame f ++ rest = lenHeader f.length ++ (f ++ rest) := by
    simp [encodeFrame, List.append_assoc]
  have hread : readLen (encodeFrame f ++ rest) = f.length := by
    rw [hassoc]; exact readLen_lenHeader f.length h (f ++ rest)
  have hlen4 : (lenHeader f.length).length = 4 := rfl
  have hready : frameReady (encodeFrame f ++ rest) := by
    constructor
    · rw [hassoc]
      simp [List.length_append, hlen4]
    · rw [hread, hassoc]
      simp [List.length_append, hlen4]
  rw [drain_eq, if_pos hready, hread]
  have hdrop4 : (encodeFrame f ++ rest).drop 4 = f ++ rest := by
    rw [hassoc, show (4 : Nat) = (lenHeader f.length).length from rfl, List.drop_left]
  have hframe : ((encodeFrame f ++ rest).drop 4).take f.length = f := by
    rw [hdrop4, List.take_left]
  have hrest : (encodeFrame f ++ rest).drop (4 + f.length) = rest := by
    rw [hassoc, show (4 : Nat) + f.length = (lenHeader f.length ++ f).length by
      simp [List.length_append, hlen4], ← List.append_assoc, List.drop_left]
  rw [hframe, hrest]

theorem drain_encodeFrames (fs : List (List Nat)) (rest : List Nat)
    (h : ∀ f ∈ fs, f.length < 4294967296) :
    drain (encodeFrames fs ++ rest) = (fs ++ (drain rest).1, (drain rest).2) := by
  induction fs with
  | nil =>
    show drain (([] : List (List Nat)).flatten ++ rest) = _
    simp
  | cons f fs ih =>
    have hflat : encodeFrames (f :: fs) ++ rest = encodeFrame f ++ (encodeFrames fs ++ rest) := by
      simp [encodeFrames, List.flatten, List.append_assoc]
    rw [hflat, drain_encodeFrame f _ (h f (by simp)),
      ih (fun g hg => h g (by simp [hg]))]
    simp

/-- C4: for every finite logical byte sequence, any two chunkings of it make
the frame decoder emit the identical frame sequence; and on a well-formed
stream of length-prefixed frames the emitted frames are exactly the payload
bytes behind each 4-byte big-endian length prefix, none split or merged. -/
theorem framedMessages_chunk_independent :
    (∀ cs1 cs2 : List (List Nat), cs1.flatten = cs2.flatten →
        framedMessages cs1 = framedMessages cs2)
    ∧ (∀ fs : List (List Nat), (∀ f ∈ fs, f.length < 4294967296) →
        framedMessages [encodeFrames fs] = fs) := by
  constructor
  · intro cs1 cs2 hflat
    rw [framedMessages_eq_drain, framedMessages_eq_drain, hflat]
  · intro fs hfs
    rw [framedMessages_eq_drain]
    have h1 : ([encodeFrames fs] : List (List Nat)).flatten = encodeFrames fs ++ [] := by simp
    rw [h1, drain_encodeFrames fs [] hfs]
    show fs ++ ([] : List (List Nat)) = fs
    simp

/-- Witness for C4: a one-chunk delivery and a byte-fragmented delivery of
the same stream produce the same frames, and a two-frame stream decodes to
exactly its two payloads. -/
theorem framedMessages_chunk_independent_witness :
    framedMessages [[0, 0, 0, 1, 7, 0, 0, 0, 2, 8, 9]]
      = framedMessages [[0], [0], [0, 1, 7, 0], [0, 0, 2, 8], [9]]
    ∧ framedMessages [encodeFrames [[7], [8, 9]]] = [[7], [8, 9]] :=
  ⟨framedMessages_chunk_independent.1 _ _ (by decide),
    framedMessages_chunk_independent.2 [[7], [8, 9]] (by decide)⟩

/-- C5: when the stream ends while the working buffer holds a partial frame
(fewer than 4 bytes, or fewer than the `4 + length` bytes its length prefix
claims), the decoder — a total function, so it terminates without error —
emits every complete frame before the partial one unchanged and silently
discards the trailing partial bytes. -/
theorem framedMessages_partial_trailing (cs fs : List (List Nat)) (t : List Nat)
    (hfs : ∀ f ∈ fs, f.length < 4294967296)
    (ht : t.length < 4 ∨ t.length < 4 + readLen t)
    (hcs : cs.flatten = encodeFrames fs ++ t) :
    framedMessages cs = fs := by
  rw [framedMessages_eq_drain, hcs, drain_encodeFrames fs t hfs]
  have hstall : drain t = ([], t) := by
    refine drain_not_ready t ?_
    intro hready
    rcases ht with h | h
    · exact absurd hready.1 (by omega)
    · exact absurd hready.2 (by omega)
  rw [hstall]
  simp

/-- Witness for C5: one complete frame followed by a truncated frame whose
prefix claims 5 bytes that never arrive. -/
theorem framedMessages_partial_trailing_witness :
    framedMessages [[0, 0, 0, 2, 7, 8, 0, 0], [0, 5, 1]] = [[7, 8]] :=
  framedMessages_partial_trailing [[0, 0, 0, 2, 7, 8, 0, 0], [0, 5, 1]] [[7, 8]]
    [0, 0, 0, 5, 1] (by decide) (by decide) (by decide)

/-! ## Top-earners aggregation lemmas -/

theorem teStep_dc_zero (sha : List Nat → List Nat) (ws : List Nat) (endTs : Int)
    (totals : Nat → String → Nat) (ts : Int) (d : TEDecoded) (h : teDc d = 0) :
    teStep sha ws endTs totals (ts, some d) = totals := by
  unfold teStep
  simp [h]

theorem teStep_key_none (sha : List Nat → List Nat) (ws : List Nat) (endTs : Int)
    (totals : Nat → String → Nat) (ts : Int) (d : TEDecoded)
    (h : teDeviceKey sha d = none) :
    teStep sha ws endTs totals (ts, some d) = totals := by
  unfold teStep
  simp [h]

theorem teStep_some (sha : List Nat → List Nat) (ws : List Nat) (endTs : Int)
    (totals : Nat → String → Nat) (ts : Int) (d : TEDecoded) (k : String)
    (hdc : ¬ teDc d = 0) (hk : teDeviceKey sha d = some k) :
    teStep sha ws endTs totals (ts, some d)
      = fun w dv => if w ∈ ws ∧ teCutoff endTs w ≤ ts ∧ dv = k
          then totals w dv + teDc d else totals w dv := by
  unfold teStep
  simp [hdc, hk]

/-- C6: per-device cumulative DC totals of the fleet top-N scan are monotone
in the window length: for any device and two windows `w1 < w2` of the
configured set, `total(device, w1) ≤ total(device, w2)` over any event
stream, because longer windows have earlier cutoffs. -/
theorem windowTotals_monotone (sha : List Nat → List Nat) (windows : List Nat) (endTs : Int)
    (frames : List (Int × Option TEDecoded)) (dev : String) (w1 w2 : Nat)
    (h1 : w1 ∈ windows) (h2 : w2 ∈ windows) (hlt : w1 < w2) :
    teTotals sha windows endTs frames w1 dev ≤ teTotals sha windows endTs frames w2 dev := by
  have hcut : teCutoff endTs w2 ≤ teCutoff endTs w1 := by
    unfold teCutoff
    have hle : (w1 : Int) * 86400000 ≤ (w2 : Int) * 86400000 := by
      have : (w1 : Int) ≤ (w2 : Int) := by exact_mod_cast Nat.le_of_lt hlt
      nlinarith
    omega
  unfold teTotals
  suffices h : ∀ (totals : Nat → String → Nat), totals w1 dev ≤ totals w2 dev →
      (frames.foldl (teStep sha windows endTs) totals) w1 dev
        ≤ (frames.foldl (teStep sha windows endTs) totals) w2 dev by
    exact h (fun _ _ => 0) (Nat.le_refl 0)
  induction frames with
  | nil => intro totals h; exact h
  | cons fr rest ih =>
    intro totals h
    show (rest.foldl (teStep sha windows endTs) (teStep sha windows endTs totals fr)) w1 dev
      ≤ (rest.foldl (teStep sha windows endTs) (teStep sha windows endTs totals fr)) w2 dev
    refine ih (teStep sha windows endTs totals fr) ?_
    obtain ⟨ts, dec⟩ := fr
    cases dec with
    | none => exact h
    | some d =>
      by_cases hdc : teDc d = 0
      · rw [teStep_dc_zero sha windows endTs totals ts d hdc]; exact h
      · cases hk : teDeviceKey sha d with
        | none => rw [teStep_key_none sha windows endTs totals ts d hk]; exact h
        | some k =>
          rw [teStep_some sha windows endTs totals ts d k hdc hk]
          by_cases hc1 : w1 ∈ windows ∧ teCutoff endTs w1 ≤ ts ∧ dev = k
          · have hc2 : w2 ∈ windows ∧ teCutoff endTs w2 ≤ ts ∧ dev = k :=
              ⟨h2, le_trans hcut hc1.2.1, hc1.2.2⟩
            simp only [if_pos hc1, if_pos hc2]
            omega
          · simp only [if_neg hc1]
            by_cases hc2 : w2 ∈ windows ∧ teCutoff endTs w2 ≤ ts ∧ dev = k
            · simp only [if_pos hc2]; omega
            · simp only [if_neg hc2]; exact h

/-- Witness for C6 at a concrete window set and event stream. -/
theorem windowTotals_monotone_witness :
    teTotals (fun l => l) [1, 7] 0 [(-10, some ⟨some 5, some [2]⟩)] 1 "x"
      ≤ teTotals (fun l => l) [1, 7] 0 [(-10, some ⟨some 5, some [2]⟩)] 7 "x" :=
  windowTotals_monotone (fun l => l) [1, 7] 0 [(-10, some ⟨some 5, some [2]⟩)] "x" 1 7
    (by decide) (by decide) (by decide)

/-! ## Object enumeration lemmas -/

theorem matchTs13_parses :
    matchTs13 "file.1700000000000.gz".data = some 1700000000000
    ∧ matchTs13 ".1234567890123.gz".data = some 1234567890123 := by
  constructor <;> decide

theorem matchTs13_rejects :
    matchTs13 "a.12345678901234.gz".data = none
    ∧ matchTs13 "a.123456789012.gz".data = none
    ∧ matchTs13 "1234567890123.gz".data = none
    ∧ matchTs13 "x.1700000000000.gzz".data = none
    ∧ matchTs13 "y.gz".data = none := by
  refine ⟨by decide, by decide, by decide, by decide, by decide⟩

theorem keyEntry_eq_spec (s e : Int) (k : String) :
    keyEntry s e k
      = (if endsWithGz k ∧ s ≤ (((matchTs13 k.data).getD 0 : Nat) : Int)
            ∧ (((matchTs13 k.data).getD 0 : Nat) : Int) ≤ e
         then some (k, (matchTs13 k.data).getD 0) else none) := by
  unfold keyEntry
  by_cases hgz : endsWithGz k
  · by_cases hrange : s ≤ (((matchTs13 k.data).getD 0 : Nat) : Int)
        ∧ (((matchTs13 k.data).getD 0 : Nat) : Int) ≤ e
    · rw [if_pos hgz, if_pos hrange, if_pos ⟨hgz, hrange.1, hrange.2⟩]
    · rw [if_pos hgz, if_neg hrange, if_neg (by tauto)]
  · rw [if_neg hgz, if_neg (by tauto)]

theorem listLoop_wellPaged (s e : Int) :
    ∀ pages : List S3Page, wellPaged pages →
      listLoop s e pages = ((pages.map S3Page.contents).flatten).filterMap (keyEntry s e) := by
  intro pages
  induction pages with
  | nil => intro _; rfl
  | cons p rest ih =>
    intro hw
    cases rest with
    | nil =>
      show p.contents.filterMap (keyEntry s e) ++ (if _ then listLoop s e [] else []) = _
      have hloop : listLoop s e [] = [] := rfl
      rw [hloop]
      simp
    | cons q rest2 =>
      obtain ⟨⟨htr, htok⟩, hw2⟩ := hw
      show p.contents.filterMap (keyEntry s e)
          ++ (if p.isTruncated ∧ p.nextContinuationToken.isSome then listLoop s e (q :: rest2)
              else []) = _
      rw [if_pos ⟨by rw [htr], by rw [htok]⟩, ih hw2]
      simp [List.filterMap_append]

/-- C7: under well-formed pagination metadata, `listGzKeysInRange` follows
continuation tokens through every page, keeps exactly the keys that end in
`.gz` whose embedded 13-digit timestamp — matched by the fixed-width regex,
0 when unparseable — lies within `[startMs, endMs]` inclusive, and returns
the entries as an ascending-by-timestamp ordering of that filtered set. -/
theorem listGzKeysInRange_spec (startMs endMs : Int) (pages : List S3Page)
    (hw : wellPaged pages) :
    List.Perm (listGzKeysInRange startMs endMs pages)
        (specKeptEntries startMs endMs (pages.map S3Page.contents).flatten)
    ∧ List.Sorted byTs (listGzKeysInRange startMs endMs pages) := by
  constructor
  · have hperm := List.perm_insertionSort byTs (listLoop startMs endMs pages)
    have heq : listLoop startMs endMs pages
        = specKeptEntries startMs endMs (pages.map S3Page.contents).flatten := by
      rw [listLoop_wellPaged startMs endMs pages hw]
      unfold specKeptEntries
      exact List.filterMap_congr (fun k _ => keyEntry_eq_spec startMs endMs k)
    rw [← heq]
    exact hperm
  · exact List.sorted_insertionSort byTs (listLoop startMs endMs pages)

/-- Witness for C7: a two-page paginated listing with one parseable `.gz`
key (timestamp 1700000000000, inside the window), one `.gz` key without a
timestamp (assigned 0, outside the window since it starts at 1) and one
non-`.gz` key. -/
theorem listGzKeysInRange_spec_witness :
    List.Perm (listGzKeysInRange 1 9999999999999
        [⟨["x.1700000000000.gz", "plain"], true, some "t"⟩, ⟨["y.gz"], false, none⟩])
      (specKeptEntries 1 9999999999999
          (([⟨["x.1700000000000.gz", "plain"], true, some "t"⟩,
             ⟨["y.gz"], false, none⟩] : List S3Page).map S3Page.contents).flatten)
    ∧ List.Sorted byTs (listGzKeysInRange 1 9999999999999
        [⟨["x.1700000000000.gz", "plain"], true, some "t"⟩, ⟨["y.gz"], false, none⟩]) :=
  listGzKeysInRange_spec 1 9999999999999
    [⟨["x.1700000000000.gz", "plain"], true, some "t"⟩, ⟨["y.gz"], false, none⟩]
    ⟨⟨rfl, rfl⟩, trivial⟩

/-! ## Wire reader lemmas -/

theorem readVarintGo_step (buf : List Nat) (fuel pos shift acc : Nat) :
    readVarintGo buf (fuel + 1) pos shift acc
      = if pos < buf.length then
          (if buf.getD pos 0 < 128 then
            Except.ok (acc + buf.getD pos 0 % 128 * 2 ^ shift, pos + 1)
          else readVarintGo buf fuel (pos + 1) (shift + 7)
            (acc + buf.getD pos 0 % 128 * 2 ^ shift))
        else .error "index out of range" := rfl

theorem readVarint_head (b : Nat) (rest : List Nat) (hb : b < 128) :
    readVarint (b :: rest) 0 = .ok (b, 1) := by
  show readVarintGo (b :: rest) (9 + 1) 0 0 0 = _
  rw [readVarintGo_step]
  simp [Nat.mod_eq_of_lt hb, hb]

theorem readUint32_head (b : Nat) (rest : List Nat) (hb : b < 128) :
    readUint32 (b :: rest) 0 = .ok (b, 1) := by
  unfold readUint32
  rw [readVarint_head b rest hb]
  simp [Except.map, Nat.mod_eq_of_lt (show b < 4294967296 by omega)]

theorem pocScanStep_eq (utf8 : List Nat → String) (sha : List Nat → List Nat)
    (tf : PocFormats) (st : Nat × List PocEntry) (frame : List Nat) :
    pocScanStep utf8 sha tf st frame = (st.1 + 1, st.2 ++ pocEmit utf8 sha tf frame) := by
  unfold pocScanStep pocEmit
  cases hpf : perFramePoc utf8 sha tf frame with
  | error er => simp
  | ok o => cases o <;> simp

theorem pocScan_acc (utf8 : List Nat → String) (sha : List Nat → List Nat) (tf : PocFormats) :
    ∀ (frames : List (List Nat)) (c : Nat) (acc : List PocEntry),
      frames.foldl (pocScanStep utf8 sha tf) (c, acc)
        = (c + frames.length, acc ++ (frames.foldl (pocScanStep utf8 sha tf) (0, [])).2) := by
  intro frames
  induction frames with
  | nil => intro c acc; simp
  | cons f fs ih =>
    intro c acc
    rw [List.foldl_cons, pocScanStep_eq, List.foldl_cons, pocScanStep_eq]
    show fs.foldl (pocScanStep utf8 sha tf) (c + 1, acc ++ pocEmit utf8 sha tf f) = _
    rw [ih (c + 1) (acc ++ pocEmit utf8 sha tf f)]
    conv_rhs => rw [ih (0 + 1) ([] ++ pocEmit utf8 sha tf f)]
    simp [List.length_cons]
    omega

/-- C8 counterexample: `getPeriodFromFrame` is one of the wire-format field
extraction routines and, walking the one-byte message `[3]` (tag with field
number 0, wire type 3), it returns normally (`ok none`) instead of raising a
malformed-message error; only `extractSubmessage` raises on wire type 3. -/
theorem getPeriodFromFrame_no_error_on_wire3 :
    getPeriodFromFrame [3] = Except.ok none
      ∧ extractSubmessage [3] 8 = Except.error ("unexpected wire type " ++ toString 3) := by
  constructor <;> rfl

/-- C8 amended: `extractSubmessage` raises a fatal malformed-message error
on a wire type other than 0, 1, 2, 5, while `getPeriodFromFrame` silently
consumes such a tag and continues; the per-frame caller of the PoC scan
catches any thrown error and skips only that frame, so the message counter
covers every frame and an erroring frame never disturbs the entries
collected from the frames around it. -/
theorem wire_type_error_handling :
    (∀ (b : Nat) (rest : List Nat) (fieldNo : Nat), b < 128 →
        (b % 8 = 3 ∨ b % 8 = 4 ∨ b % 8 = 6 ∨ b % 8 = 7) →
        extractSubmessage (b :: rest) fieldNo
          = Except.error ("unexpected wire type " ++ toString (b % 8)))
    ∧ (∀ b : Nat, b < 128 → (b % 8 = 3 ∨ b % 8 = 4 ∨ b % 8 = 6 ∨ b % 8 = 7) →
        getPeriodFromFrame [b] = Except.ok none)
    ∧ (∀ (utf8 : List Nat → String) (sha : List Nat → List Nat) (tf : PocFormats)
        (frames : List (List Nat)),
        (pocScanFrames utf8 sha tf frames).1 = frames.length)
    ∧ (∀ (utf8 : List Nat → String) (sha : List Nat → List Nat) (tf : PocFormats)
        (fs1 : List (List Nat)) (frame : List Nat) (fs2 : List (List Nat)) (er : String),
        perFramePoc utf8 sha tf frame = .error er →
        (pocScanFrames utf8 sha tf (fs1 ++ frame :: fs2)).2
          = (pocScanFrames utf8 sha tf fs1).2 ++ (pocScanFrames utf8 sha tf fs2).2) := by
  refine ⟨?_, ?_, ?_, ?_⟩
  · intro b rest fieldNo hb hw
    have hw2 : ¬ b % 8 = 2 := by omega
    have hw0 : ¬ b % 8 = 0 := by omega
    have hw1 : ¬ b % 8 = 1 := by omega
    have hw5 : ¬ b % 8 = 5 := by omega
    show exGo (b :: rest) fieldNo (rest.length + 1 + 1) 0 = _
    simp only [exGo]
    rw [if_pos (by simp), readUint32_head b rest hb]
    simp only [if_neg hw2, if_neg hw0, if_neg hw1, if_neg hw5]
  · intro b hb hw
    show periodGo [b] (1 + 1) 0 none none = _
    simp only [periodGo]
    rw [if_pos (by simp), readUint32_head b [] hb]
    have hw2 : ¬ b % 8 = 2 := by omega
    have hw0 : ¬ b % 8 = 0 := by omega
    have hw1 : ¬ b % 8 = 1 := by omega
    have hw5 : ¬ b % 8 = 5 := by omega
    simp only [if_neg hw2, if_neg hw0, if_neg hw1, if_neg hw5]
    show periodGo [b] (0 + 1) 1 none none = _
    simp only [periodGo]
    rw [if_neg (by simp)]
  · intro utf8 sha tf frames
    unfold pocScanFrames
    rw [pocScan_acc utf8 sha tf frames 0 []]
    simp
  · intro utf8 sha tf fs1 frame fs2 er hpf
    unfold pocScanFrames
    rw [List.foldl_append, List.foldl_cons, pocScanStep_eq]
    have hemit : pocEmit utf8 sha tf frame = [] := by
      unfold pocEmit
      rw [hpf]
    rw [hemit, List.append_nil]
    rw [pocScan_acc utf8 sha tf fs2
      ((fs1.foldl (pocScanStep utf8 sha tf) (0, [])).1 + 1)
      ((fs1.foldl (pocScanStep utf8 sha tf) (0, [])).2)]

/-- Witness for C8's amended theorem at concrete frames: the one-byte wire
type 3 message errors in `extractSubmessage`, passes `getPeriodFromFrame`,
is counted by the scan, and contributes nothing while the scan continues. -/
theorem wire_type_error_handling_witness :
    extractSubmessage [3] 1 = Except.error ("unexpected wire type " ++ toString (3 % 8))
    ∧ getPeriodFromFrame [3] = Except.ok none
    ∧ (pocScanFrames (fun _ => "") (fun l => l) ⟨"a", "b", "c", "d"⟩ [[3]]).1 = [[3]].length
    ∧ (pocScanFrames (fun _ => "") (fun l => l) ⟨"a", "b", "c", "d"⟩ ([] ++ [3] :: [])).2
        = (pocScanFrames (fun _ => "") (fun l => l) ⟨"a", "b", "c", "d"⟩ []).2
          ++ (pocScanFrames (fun _ => "") (fun l => l) ⟨"a", "b", "c", "d"⟩ []).2 :=
  ⟨wire_type_error_handling.1 3 [] 1 (by decide) (Or.inl rfl),
   wire_type_error_handling.2.1 3 (by decide) (Or.inl rfl),
   wire_type_error_handling.2.2.1 (fun _ => "") (fun l => l) ⟨"a", "b", "c", "d"⟩ [[3]],
   wire_type_error_handling.2.2.2 (fun _ => "") (fun l => l) ⟨"a", "b", "c", "d"⟩ [] [3] []
     ("unexpected wire type " ++ toString 3) rfl⟩
